import Mathlib

/-!
# Verification of the wurstliga-data scraping and aggregation pipeline

Shallow embedding of the core pipeline of `scraper/scrape_kicktipp.py` and
`scraper/compute_wurstliga.py`:

* document/table model and the two extractors (`parse_matches`, `parse_players`),
* the scoring engine (`apply_wurstliga_scoring`),
* the round status resolver (`derive_spieltag_status`),
* the season aggregator (the fold in `compute_wurstliga.main`).

Cell texts are modelled as the strings produced by BeautifulSoup's
`get_text`.  Python's regular-expression matching of `NUM_RE` and Python's
`int()` conversion are embedded as executable character-list functions.
The kickoff-timestamp field of a match record is not modelled: no verified
property refers to it.
-/

namespace Wurstliga

/-! ## Python string primitives -/

/-- ASCII whitespace as matched by Python's `str.strip` and by `\s` in
`NUM_RE` (space, tab, newline, carriage return, vertical tab, form feed). -/
def isPySpace (c : Char) : Bool :=
  c == ' ' || c == '\t' || c == '\n' || c == '\r' ||
    c == Char.ofNat 11 || c == Char.ofNat 12

/-- A decimal digit, as matched by `\d` of `NUM_RE` on the scraped text. -/
def isPyDigit (c : Char) : Bool := c.isDigit

/-- Remove trailing whitespace. -/
def stripEndL (l : List Char) : List Char :=
  (l.reverse.dropWhile isPySpace).reverse

/-- Python `str.strip`: remove leading and trailing whitespace. -/
def pyStripL (l : List Char) : List Char :=
  (stripEndL l).dropWhile isPySpace

/-- Python `str.strip` on `String`. -/
def pyStrip (s : String) : String :=
  (pyStripL s.data).asString

/-- Python substring containment (`needle in hay`). -/
def strContains (hay needle : List Char) : Bool :=
  needle.isPrefixOf hay ||
    match hay with
    | [] => false
    | _ :: t => strContains t needle

/-- Matching of `NUM_RE = ^\s*(\d+)\s*:\s*(\d+)\s*$` against a whole string
(`NUM_RE.match` anchors at the start; the final `\s*$` forces the rest of
the string to be whitespace). -/
def numReMatchL (s : List Char) : Bool :=
  let s1 := s.dropWhile isPySpace
  let d1 := s1.takeWhile isPyDigit
  let r1 := s1.dropWhile isPyDigit
  if d1.isEmpty then false
  else
    match r1.dropWhile isPySpace with
    | ':' :: r2 =>
      let s2 := r2.dropWhile isPySpace
      let d2 := s2.takeWhile isPyDigit
      let r3 := s2.dropWhile isPyDigit
      !d2.isEmpty && r3.all isPySpace
    | _ => false

/-- Matching of `NUM_RE` on `String`. -/
def numReMatch (s : String) : Bool := numReMatchL s.data

/-- Digit run of a Python integer literal after an optional sign: one or
more digits, where a single underscore may separate two digits. -/
def pyIntRestOk : List Char → Bool
  | [] => true
  | '_' :: rest =>
    match rest with
    | [] => false
    | c :: rest2 => isPyDigit c && pyIntRestOk rest2
  | c :: rest => isPyDigit c && pyIntRestOk rest

/-- Non-empty digit run (with optional internal underscores). -/
def pyIntDigitsOk : List Char → Bool
  | [] => false
  | c :: rest => isPyDigit c && pyIntRestOk rest

/-- Numeric value of a digit run, ignoring underscores. -/
def digitsVal (l : List Char) : Nat :=
  (l.filter (fun c => c != '_')).foldl (fun acc c => acc * 10 + (c.toNat - 48)) 0

/-- Python `int(str)`: optional surrounding whitespace, optional sign, then
a non-empty digit run; anything else raises (`none`). -/
def pyInt? (s : List Char) : Option Int :=
  match pyStripL s with
  | '-' :: d => if pyIntDigitsOk d then some (-(digitsVal d : Int)) else none
  | '+' :: d => if pyIntDigitsOk d then some (digitsVal d : Int) else none
  | d => if pyIntDigitsOk d then some (digitsVal d : Int) else none

/-- The `try: int(...) except: 0` idiom of `parse_players`. -/
def pyIntOrZero (s : String) : Int :=
  (pyInt? s.data).getD 0

/-! ## Document model

A parsed document is the sequence of its tables in document order; a table
is its header texts (`th` cells) and its data rows (`td` cell texts), as
produced by `get_text`. -/

structure Table where
  headers : List String
  rows : List (List String)
deriving DecidableEq

/-- A parsed document: the tables found by `soup.find_all("table")`. -/
abbrev Doc := List Table

/-! ## Match extractor (`parse_matches`, lines 103-158) -/

/-- One match record.  The kickoff-timestamp field is not modelled. -/
structure Match where
  kicktipp_row : Nat
  home : String
  away : String
  result : String
deriving DecidableEq

/-- Header test of the matches table:
`{"Termin","Heim","Gast","Ergebnis"}.issubset(set(headers))`. -/
def matchTableOk (t : Table) : Bool :=
  ["Termin", "Heim", "Gast", "Ergebnis"].all (fun h => t.headers.contains h)

/-- Result normalization (lines 144-146): keep the stripped cell only if it
matches `NUM_RE`, else the empty string. -/
def normalizeResult (cell : String) : String :=
  let res := pyStrip cell
  if numReMatch res then res else ""

/-- One data row of the matches table, with its 1-based row number; rows
with fewer than 4 cells are skipped. -/
def parseMatchRow (i : Nat) (r : List String) : Option Match :=
  if r.length < 4 then none
  else some
    { kicktipp_row := i
      home := r.getD 1 ""
      away := r.getD 2 ""
      result := normalizeResult (r.getD 3 "") }

/-- Embedding of `parse_matches`: first table whose headers contain the required set;
returns the parsed rows and the total row count (the slot count). -/
def parse_matches (doc : Doc) : List Match × Nat :=
  match doc.find? matchTableOk with
  | none => ([], 0)
  | some tbl =>
    ((tbl.rows.enumFrom 1).filterMap (fun x => parseMatchRow x.1 x.2), tbl.rows.length)

/-! ## Player score extractor (`parse_players`, lines 160-211) -/

/-- A raw player record: name and Kicktipp point total. -/
structure RawPlayer where
  name : String
  kicktipp_P : Int
deriving DecidableEq

/-- Header test of the player table: `"Name" in header_text and "P" in
header_text` where `header_text` is the space-joined header cells (Python
substring containment). -/
def playerTableOk (t : Table) : Bool :=
  let ht := (String.intercalate " " t.headers).data
  strContains ht "Name".data && strContains ht "P".data

/-- Name column index: `headers.index("Name")`, falling back to 2 (or 0 for
short header rows). -/
def nameIdxOf (headers : List String) : Nat :=
  match headers.indexOf? "Name" with
  | some i => i
  | none => if 2 < headers.length then 2 else 0

/-- Points column index: the last header equal to `"P"`, falling back to
`max(0, len(headers) - 3)`. -/
def pIdxOf (headers : List String) : Nat :=
  match (headers.enum.filter (fun x => x.2 = "P")).getLast? with
  | some x => x.1
  | none => headers.length - 3

/-- One data row of the player table: skipped when it has too few cells or
an empty (stripped) name; a non-numeric points cell coerces to 0. -/
def parsePlayerRow (nameIdx pIdx : Nat) (r : List String) : Option RawPlayer :=
  if r.length ≤ max nameIdx pIdx then none
  else if pyStrip (r.getD nameIdx "") = "" then none
  else some
    { name := pyStrip (r.getD nameIdx "")
      kicktipp_P := pyIntOrZero (pyStrip (r.getD pIdx "")) }

/-- Embedding of `parse_players`: first table passing `playerTableOk`, rows parsed with
the derived column indices. -/
def parse_players (doc : Doc) : List RawPlayer :=
  match doc.find? playerTableOk with
  | none => []
  | some tbl =>
    tbl.rows.filterMap (parsePlayerRow (nameIdxOf tbl.headers) (pIdxOf tbl.headers))

/-! ## Scoring engine (`apply_wurstliga_scoring`, lines 213-243)

The ladder is the externally supplied configuration value
`WURSTLIGA_LADDER`; the engine is embedded parameterised over it. -/

/-- A scored player record: raw record plus the derived fields. -/
structure ScoredPlayer where
  name : String
  kicktipp_P : Int
  dense_rank : Nat
  wurstliga_pts : Int
  sts : Int
  tv : Int
  null_wurst : Int
deriving DecidableEq

/-- The configured points ladder (`config.WURSTLIGA_LADDER`). -/
def WURSTLIGA_LADDER : List Int := [10, 8, 6, 5, 4, 3, 2, 1]

/-- The distinct raw scores present, sorted descending
(`sorted(bucket.keys(), reverse=True)`). -/
def uniqueScoresDesc (players : List RawPlayer) : List Int :=
  List.insertionSort (· ≥ ·) (players.map (fun p => p.kicktipp_P)).dedup

/-- Rank lookup in a descending list of distinct scores: position + 1, with
the dict-miss fallback 999 (`score_to_dense_rank.get(score, 999)`). -/
def rankIn (L : List Int) (s : Int) : Nat :=
  match L.indexOf? s with
  | some i => i + 1
  | none => 999

/-- The `score_to_dense_rank` mapping built from the player list. -/
def score_to_dense_rank (players : List RawPlayer) (s : Int) : Nat :=
  rankIn (uniqueScoresDesc players) s

/-- Derived fields of one player (loop body, lines 230-243). -/
def scorePlayer (ladder : List Int) (rank : Int → Nat) (p : RawPlayer) : ScoredPlayer :=
  let dense_rank := rank p.kicktipp_P
  let ladder_idx := dense_rank - 1
  let wurst : Int := if h : ladder_idx < ladder.length then ladder.get ⟨ladder_idx, h⟩ else 0
  { name := p.name
    kicktipp_P := p.kicktipp_P
    dense_rank := dense_rank
    wurstliga_pts := wurst
    sts := if dense_rank = 1 then 1 else 0
    tv := if p.kicktipp_P = 0 then 1 else 0
    null_wurst := if wurst = 0 then 1 else 0 }

/-- Embedding of `apply_wurstliga_scoring` as a pure function: every player is extended
with the fields computed from the shared `score_to_dense_rank` mapping. -/
def apply_wurstliga_scoring (ladder : List Int) (players : List RawPlayer) : List ScoredPlayer :=
  players.map (scorePlayer ladder (score_to_dense_rank players))

/-! ## Round status resolver (`derive_spieltag_status`, lines 245-263) -/

inductive Status where
  | not_started
  | in_progress
  | complete
deriving DecidableEq

/-- Numeric progression order of the three states. -/
def Status.level : Status → Nat
  | .not_started => 0
  | .in_progress => 1
  | .complete => 2

/-- The configured default slot count (`config.MATCHES_PER_SPIELTAG`). -/
def MATCHES_PER_SPIELTAG : Nat := 9

/-- Completed results: matches whose stored result matches `NUM_RE`. -/
def resultsDone (ms : List Match) : Nat :=
  (ms.filter (fun m => numReMatch m.result)).length

/-- The naive status rule (lines 250-257), before the all-zero override:
expected slots are `total_slots` if positive, else the match-list length,
else the configured default. -/
def naiveStatus (ms : List Match) (total_slots : Nat) : Status :=
  let rd := resultsDone ms
  let total := if 0 < total_slots then total_slots
    else if ms.length ≠ 0 then ms.length else MATCHES_PER_SPIELTAG
  if rd = 0 then .not_started
  else if rd < total then .in_progress
  else .complete

/-- Embedding of `derive_spieltag_status`: the naive rule, overridden to `not_started`
when the player list is non-empty with all-zero scores and no results. -/
def derive_spieltag_status (ms : List Match) (total_slots : Nat)
    (players : List RawPlayer) : Status :=
  let status := naiveStatus ms total_slots
  if players ≠ [] ∧ (∀ p ∈ players, p.kicktipp_P = 0) ∧ resultsDone ms = 0
  then .not_started else status

/-! ## Season aggregator (`compute_wurstliga.main`, lines 20-52) -/

/-- Per-player accumulator (`totals` entry of `compute_wurstliga.main`). -/
structure Accum where
  kicktipp_sum_P : Int
  wurstliga_sum : Int
  tv_sum : Int
  null_sum : Int
  sts_sum : Int
deriving DecidableEq

/-- The zero-initialized accumulator created by the `defaultdict`. -/
def Accum.zero : Accum := ⟨0, 0, 0, 0, 0⟩

/-- Fold one scored player into an accumulator (lines 35-39). -/
def Accum.add (t : Accum) (p : ScoredPlayer) : Accum :=
  { kicktipp_sum_P := t.kicktipp_sum_P + p.kicktipp_P
    wurstliga_sum := t.wurstliga_sum + p.wurstliga_pts
    tv_sum := t.tv_sum + p.tv
    null_sum := t.null_sum + p.null_wurst
    sts_sum := t.sts_sum + p.sts }

/-- The aggregation-relevant fields of a persisted round document. -/
structure RoundDoc where
  spieltag : Int
  status : Status
  players : List ScoredPlayer
deriving DecidableEq

/-- Exclusion test of the aggregator loop (lines 25-31): skip rounds with
status `not_started`, and rounds with at least one player where every
player's raw score is 0. -/
def skipRound (d : RoundDoc) : Bool :=
  decide (d.status = Status.not_started) ||
    (d.players.all (fun p => decide (p.kicktipp_P = 0)) && !d.players.isEmpty)

/-- The running totals: an insertion-ordered association list, modelling
the Python `defaultdict` keyed by player name. -/
abbrev Totals := List (String × Accum)

/-- Update of the totals, mirroring `totals[p["name"]] += ...`: update the existing entry for the name, or
append a zero-initialized entry folded with the player. -/
def addPlayer (t : Totals) (p : ScoredPlayer) : Totals :=
  if t.any (fun kv => decide (kv.1 = p.name)) then
    t.map (fun kv => if kv.1 = p.name then (kv.1, kv.2.add p) else kv)
  else t ++ [(p.name, Accum.zero.add p)]

/-- Look up a name's accumulator, defaulting to zero (the `defaultdict`
read semantics). -/
def lookupTot (t : Totals) (n : String) : Accum :=
  match t.find? (fun kv => decide (kv.1 = n)) with
  | some kv => kv.2
  | none => Accum.zero

/-- Aggregator state: running totals and the `counted` round list. -/
structure AggState where
  totals : Totals
  counted : List Int
deriving DecidableEq

/-- Loop body of `compute_wurstliga.main`: skip excluded rounds; otherwise
record the round and fold its players. -/
def aggStep (s : AggState) (d : RoundDoc) : AggState :=
  if skipRound d then s
  else { totals := d.players.foldl addPlayer s.totals
         counted := s.counted ++ [d.spieltag] }

/-- The season aggregation over the round documents in file order. -/
def aggregate (docs : List RoundDoc) : AggState :=
  docs.foldl aggStep ⟨[], []⟩

/-- The sort key comparison of the standings output (line 49): descending
lexicographic on `(wurstliga_sum, kicktipp_sum_P)` — `a` may precede `b`
iff `a`'s key is lexicographically at least `b`'s. -/
def standingsKeyGE (a b : String × Accum) : Prop :=
  b.2.wurstliga_sum < a.2.wurstliga_sum ∨
    (a.2.wurstliga_sum = b.2.wurstliga_sum ∧ b.2.kicktipp_sum_P ≤ a.2.kicktipp_sum_P)

instance : DecidableRel standingsKeyGE := fun a b => by
  unfold standingsKeyGE
  infer_instance

instance : IsTotal (String × Accum) standingsKeyGE := by
  constructor
  intro a b
  unfold standingsKeyGE
  omega

instance : IsTrans (String × Accum) standingsKeyGE := by
  constructor
  intro a b c hab hbc
  unfold standingsKeyGE at hab hbc ⊢
  omega

/-- Embedding of `sorted(totals.items(), key=..., reverse=True)`: the standings player
list, sorted descending by total league points then total raw score. -/
def sortStandings (t : Totals) : Totals :=
  List.insertionSort standingsKeyGE t

/-! ## Lemmas on the scoring engine -/

lemma sorted_uniqueScoresDesc (players : List RawPlayer) :
    List.Sorted (· ≥ ·) (uniqueScoresDesc players) :=
  List.sorted_insertionSort _ _

lemma perm_uniqueScoresDesc (players : List RawPlayer) :
    List.Perm (uniqueScoresDesc players) (players.map (fun p => p.kicktipp_P)).dedup :=
  List.perm_insertionSort _ _

lemma nodup_uniqueScoresDesc (players : List RawPlayer) :
    (uniqueScoresDesc players).Nodup :=
  (perm_uniqueScoresDesc players).symm.nodup (List.nodup_dedup _)

lemma pairwise_gt_uniqueScoresDesc (players : List RawPlayer) :
    (uniqueScoresDesc players).Pairwise (· > ·) := by
  have h := (sorted_uniqueScoresDesc players).and (nodup_uniqueScoresDesc players)
  exact h.imp (fun hab => lt_of_le_of_ne hab.1 (Ne.symm hab.2))

lemma rankIn_eq_of_indexOf? {L : List Int} {s : Int} {i : Nat}
    (h : L.indexOf? s = some i) : rankIn L s = i + 1 := by
  unfold rankIn
  rw [h]

lemma mem_uniqueScoresDesc {players : List RawPlayer} {s : Int}
    (hs : s ∈ (players.map (fun p => p.kicktipp_P)).dedup) :
    s ∈ uniqueScoresDesc players :=
  (perm_uniqueScoresDesc players).symm.subset hs

/-- In a strictly descending list, the index of an element counts the
elements greater than it. -/
lemma indexOf?_pairwise_gt :
    ∀ {L : List Int}, L.Pairwise (· > ·) → ∀ {s : Int}, s ∈ L →
      L.indexOf? s = some ((L.filter (fun t => decide (s < t))).length) := by
  intro L
  induction L with
  | nil => intro _ s hs; cases hs
  | cons a rest ih =>
    intro hpw s hs
    rw [List.pairwise_cons] at hpw
    rw [List.indexOf?_cons]
    by_cases hsa : s = a
    · subst hsa
      have hnil : (s :: rest).filter (fun t => decide (s < t)) = [] := by
        rw [List.filter_eq_nil_iff]
        intro b hb
        rcases List.mem_cons.mp hb with hb | hb
        · subst hb; simp
        · have := hpw.1 b hb
          simp only [decide_eq_true_eq]
          omega
      simp [hnil]
    · have hmem : s ∈ rest := by
        rcases List.mem_cons.mp hs with h | h
        · exact absurd h hsa
        · exact h
      have hlt : s < a := hpw.1 s hmem
      rw [List.filter_cons_of_pos (by simpa using hlt)]
      have hbeq : (a == s) = false := by
        simp [hsa, Ne.symm hsa]
      rw [hbeq, if_neg (by simp), ih hpw.2 hmem]
      simp

lemma rank_eq_one_add_count {players : List RawPlayer} {s : Int}
    (hs : s ∈ (players.map (fun p => p.kicktipp_P)).dedup) :
    score_to_dense_rank players s =
      1 + (((players.map (fun p => p.kicktipp_P)).dedup).filter
            (fun t => decide (s < t))).length := by
  have hmem := mem_uniqueScoresDesc hs
  have hidx := indexOf?_pairwise_gt (pairwise_gt_uniqueScoresDesc players) hmem
  have hlen : ((uniqueScoresDesc players).filter (fun t => decide (s < t))).length
      = (((players.map (fun p => p.kicktipp_P)).dedup).filter
          (fun t => decide (s < t))).length :=
    ((perm_uniqueScoresDesc players).filter _).length_eq
  unfold score_to_dense_rank
  rw [rankIn_eq_of_indexOf? hidx, hlen]
  omega

/-- In a strictly descending list, exactly `i` elements exceed the element
at index `i`. -/
lemma filter_gt_get_length :
    ∀ {L : List Int}, L.Pairwise (· > ·) → ∀ i (hi : i < L.length),
      (L.filter (fun t => decide (L.get ⟨i, hi⟩ < t))).length = i := by
  intro L
  induction L with
  | nil => intro _ i hi; cases (Nat.not_lt_zero i) hi
  | cons a rest ih =>
    intro hpw i hi
    rw [List.pairwise_cons] at hpw
    cases i with
    | zero =>
      have hnil : (a :: rest).filter (fun t => decide ((a :: rest).get ⟨0, hi⟩ < t)) = [] := by
        rw [List.filter_eq_nil_iff]
        intro b hb
        rcases List.mem_cons.mp hb with hb | hb
        · subst hb; simp
        · have := hpw.1 b hb
          simp only [List.get] at *
          simp only [decide_eq_true_eq]
          omega
      rw [hnil]
      rfl
    | succ j =>
      have hj : j < rest.length := Nat.lt_of_succ_lt_succ hi
      have hget : (a :: rest).get ⟨j + 1, hi⟩ = rest.get ⟨j, hj⟩ := rfl
      have hmem : rest.get ⟨j, hj⟩ ∈ rest := List.get_mem rest j hj
      have hlt : rest.get ⟨j, hj⟩ < a := hpw.1 _ hmem
      rw [hget, List.filter_cons_of_pos (by simpa using hlt), List.length_cons,
        ih hpw.2 j hj]

lemma mem_apply_scoring {ladder : List Int} {players : List RawPlayer} {p : ScoredPlayer} :
    p ∈ apply_wurstliga_scoring ladder players ↔
      ∃ q ∈ players, scorePlayer ladder (score_to_dense_rank players) q = p :=
  List.mem_map

lemma scorePlayer_kicktipp_P (ladder : List Int) (rank : Int → Nat) (q : RawPlayer) :
    (scorePlayer ladder rank q).kicktipp_P = q.kicktipp_P := rfl

lemma scorePlayer_dense_rank (ladder : List Int) (rank : Int → Nat) (q : RawPlayer) :
    (scorePlayer ladder rank q).dense_rank = rank q.kicktipp_P := rfl

lemma score_mem_dedup {players : List RawPlayer} {q : RawPlayer} (hq : q ∈ players) :
    q.kicktipp_P ∈ (players.map (fun p => p.kicktipp_P)).dedup :=
  List.mem_dedup.mpr (List.mem_map_of_mem _ hq)

/-- Claim C1: For every player list and ladder, the scoring engine assigns
dense descending ranks starting at 1 by distinct raw score (equal scores
share a rank; each rank is one more than the number of distinct larger
scores; every rank from 1 to the number of distinct scores is attained),
league points are `ladder[rank-1]` for ranks within the ladder and 0
beyond it, and the three flags mark rank 1, raw score 0, and league
points 0 respectively. -/
theorem scoring_engine_spec (ladder : List Int) (players : List RawPlayer) :
    (∀ p ∈ apply_wurstliga_scoring ladder players,
      ∀ q ∈ apply_wurstliga_scoring ladder players,
        p.kicktipp_P = q.kicktipp_P → p.dense_rank = q.dense_rank) ∧
    (∀ p ∈ apply_wurstliga_scoring ladder players,
      p.dense_rank =
        1 + (((players.map (fun q => q.kicktipp_P)).dedup).filter
              (fun t => decide (p.kicktipp_P < t))).length) ∧
    (∀ k, 1 ≤ k → k ≤ ((players.map (fun q => q.kicktipp_P)).dedup).length →
      ∃ p ∈ apply_wurstliga_scoring ladder players, p.dense_rank = k) ∧
    (∀ p ∈ apply_wurstliga_scoring ladder players,
      (∀ h : p.dense_rank - 1 < ladder.length,
          p.wurstliga_pts = ladder.get ⟨p.dense_rank - 1, h⟩) ∧
      (ladder.length < p.dense_rank → p.wurstliga_pts = 0)) ∧
    (∀ p ∈ apply_wurstliga_scoring ladder players,
      (p.sts = 1 ↔ p.dense_rank = 1) ∧ (p.tv = 1 ↔ p.kicktipp_P = 0) ∧
        (p.null_wurst = 1 ↔ p.wurstliga_pts = 0)) := by
  have hrank : ∀ p ∈ apply_wurstliga_scoring ladder players,
      p.dense_rank =
        1 + (((players.map (fun q => q.kicktipp_P)).dedup).filter
              (fun t => decide (p.kicktipp_P < t))).length := by
    intro p hp
    obtain ⟨q, hq, rfl⟩ := mem_apply_scoring.mp hp
    rw [scorePlayer_dense_rank, scorePlayer_kicktipp_P]
    exact rank_eq_one_add_count (score_mem_dedup hq)
  refine ⟨?_, hrank, ?_, ?_, ?_⟩
  · intro p hp q hq hpq
    rw [hrank p hp, hrank q hq, hpq]
  · intro k hk1 hk2
    set D := (players.map (fun q => q.kicktipp_P)).dedup with hD
    have hlenL : (uniqueScoresDesc players).length = D.length :=
      (perm_uniqueScoresDesc players).length_eq
    have hik : k - 1 < (uniqueScoresDesc players).length := by omega
    set s := (uniqueScoresDesc players).get ⟨k - 1, hik⟩ with hs
    have hsmemL : s ∈ uniqueScoresDesc players := List.get_mem _ _ _
    have hsD : s ∈ D := (perm_uniqueScoresDesc players).subset hsmemL
    obtain ⟨q, hq, hqs⟩ := List.exists_of_mem_map (List.mem_dedup.mp hsD)
    refine ⟨scorePlayer ladder (score_to_dense_rank players) q,
      mem_apply_scoring.mpr ⟨q, hq, rfl⟩, ?_⟩
    rw [scorePlayer_dense_rank, hqs]
    have hcntL : ((uniqueScoresDesc players).filter
        (fun t => decide (s < t))).length = k - 1 :=
      filter_gt_get_length (pairwise_gt_uniqueScoresDesc players) (k - 1) hik
    have hcntD : ((uniqueScoresDesc players).filter (fun t => decide (s < t))).length
        = (D.filter (fun t => decide (s < t))).length :=
      ((perm_uniqueScoresDesc players).filter _).length_eq
    rw [rank_eq_one_add_count hsD, ← hD]
    omega
  · intro p hp
    obtain ⟨q, hq, rfl⟩ := mem_apply_scoring.mp hp
    constructor
    · intro h
      simp only [scorePlayer, scorePlayer_dense_rank] at h ⊢
      rw [dif_pos h]
    · intro h
      simp only [scorePlayer, scorePlayer_dense_rank] at h ⊢
      rw [dif_neg (by omega)]
  · intro p hp
    obtain ⟨q, hq, rfl⟩ := mem_apply_scoring.mp hp
    simp only [scorePlayer]
    refine ⟨?_, ?_, ?_⟩ <;> split <;> simp_all

/-- Witness for `scoring_engine_spec` on a concrete round: players with
raw scores 5, 3, 5, 0 and ladder `[10, 8, 6]`. -/
theorem scoring_engine_spec_witness :
    (⟨"A", 5, 1, 10, 1, 0, 0⟩ : ScoredPlayer) ∈
        apply_wurstliga_scoring [10, 8, 6]
          [⟨"A", 5⟩, ⟨"B", 3⟩, ⟨"C", 5⟩, ⟨"D", 0⟩] ∧
    (⟨"A", 5, 1, 10, 1, 0, 0⟩ : ScoredPlayer).dense_rank =
      1 + ((([⟨"A", 5⟩, ⟨"B", 3⟩, ⟨"C", 5⟩, ⟨"D", 0⟩] : List RawPlayer).map
            (fun q => q.kicktipp_P)).dedup.filter
            (fun t => decide ((5 : Int) < t))).length :=
  ⟨by decide,
    (scoring_engine_spec [10, 8, 6] [⟨"A", 5⟩, ⟨"B", 3⟩, ⟨"C", 5⟩, ⟨"D", 0⟩]).2.1
      ⟨"A", 5, 1, 10, 1, 0, 0⟩ (by decide)⟩

/-- Claim C10: The 999 fallback of the score-to-rank lookup is unreachable:
every player's score is present in the descending distinct-score list, and
every assigned dense rank lies between 1 and the number of distinct raw
scores. -/
theorem dense_rank_in_range (ladder : List Int) (players : List RawPlayer) :
    ∀ p ∈ apply_wurstliga_scoring ladder players,
      (uniqueScoresDesc players).indexOf? p.kicktipp_P ≠ none ∧
      1 ≤ p.dense_rank ∧
      p.dense_rank ≤ ((players.map (fun q => q.kicktipp_P)).dedup).length := by
  intro p hp
  obtain ⟨q, hq, rfl⟩ := mem_apply_scoring.mp hp
  rw [scorePlayer_dense_rank, scorePlayer_kicktipp_P]
  have hsD := score_mem_dedup hq
  have hmem := mem_uniqueScoresDesc hsD
  have hidx := indexOf?_pairwise_gt (pairwise_gt_uniqueScoresDesc players) hmem
  refine ⟨by rw [hidx]; exact fun h => Option.noConfusion h, ?_, ?_⟩
  · unfold score_to_dense_rank
    rw [rankIn_eq_of_indexOf? hidx]
    omega
  · have hlt : ((uniqueScoresDesc players).filter
        (fun t => decide (q.kicktipp_P < t))).length <
        (uniqueScoresDesc players).length := by
      rw [List.length_filter_lt_length_iff_exists]
      exact ⟨q.kicktipp_P, hmem, by simp⟩
    have hlen : (uniqueScoresDesc players).length
        = ((players.map (fun q => q.kicktipp_P)).dedup).length :=
      (perm_uniqueScoresDesc players).length_eq
    unfold score_to_dense_rank
    rw [rankIn_eq_of_indexOf? hidx]
    omega

/-- Witness for `dense_rank_in_range` on a concrete player list. -/
theorem dense_rank_in_range_witness :
    (⟨"B", 3, 2, 8, 0, 0, 0⟩ : ScoredPlayer) ∈
        apply_wurstliga_scoring [10, 8, 6] [⟨"A", 5⟩, ⟨"B", 3⟩] ∧
    1 ≤ (⟨"B", 3, 2, 8, 0, 0, 0⟩ : ScoredPlayer).dense_rank ∧
    (⟨"B", 3, 2, 8, 0, 0, 0⟩ : ScoredPlayer).dense_rank ≤
      ((([⟨"A", 5⟩, ⟨"B", 3⟩] : List RawPlayer).map
        (fun q => q.kicktipp_P)).dedup).length :=
  ⟨by decide,
    (dense_rank_in_range [10, 8, 6] [⟨"A", 5⟩, ⟨"B", 3⟩]
      ⟨"B", 3, 2, 8, 0, 0, 0⟩ (by decide)).2⟩

/-- Claim C5: Determinism under input reordering: permuting the player list
leaves the score-to-rank mapping unchanged, hence every player receives
identical derived fields in either run, and the two outputs are
permutations of each other. -/
theorem scoring_perm_invariant (ladder : List Int) (l₁ l₂ : List RawPlayer)
    (h : l₁.Perm l₂) :
    score_to_dense_rank l₁ = score_to_dense_rank l₂ ∧
    apply_wurstliga_scoring ladder l₁ =
      l₁.map (scorePlayer ladder (score_to_dense_rank l₂)) ∧
    (apply_wurstliga_scoring ladder l₁).Perm (apply_wurstliga_scoring ladder l₂) := by
  have huniq : uniqueScoresDesc l₁ = uniqueScoresDesc l₂ := by
    refine List.eq_of_perm_of_sorted
      ((perm_uniqueScoresDesc l₁).trans
        (((h.map _).dedup).trans (perm_uniqueScoresDesc l₂).symm))
      (sorted_uniqueScoresDesc l₁) (sorted_uniqueScoresDesc l₂)
  have hfun : score_to_dense_rank l₁ = score_to_dense_rank l₂ := by
    funext s
    unfold score_to_dense_rank
    rw [huniq]
  refine ⟨hfun, ?_, ?_⟩
  · unfold apply_wurstliga_scoring
    rw [hfun]
  · unfold apply_wurstliga_scoring
    rw [hfun]
    exact h.map _

/-- Witness for `scoring_perm_invariant` on a concrete permutation. -/
theorem scoring_perm_invariant_witness :
    apply_wurstliga_scoring [10, 8] [⟨"A", 5⟩, ⟨"B", 3⟩] =
      ([⟨"A", 5⟩, ⟨"B", 3⟩] : List RawPlayer).map
        (scorePlayer [10, 8] (score_to_dense_rank [⟨"B", 3⟩, ⟨"A", 5⟩])) :=
  (scoring_perm_invariant [10, 8] [⟨"A", 5⟩, ⟨"B", 3⟩] [⟨"B", 3⟩, ⟨"A", 5⟩]
    (List.Perm.swap _ _ _)).2.1

/-! ## Round status resolver: theorems -/

/-- Claim C2: The resolver returns `not_started` when the completed-result
count is 0, `in_progress` when it is positive but below the expected slot
count, and `complete` when it reaches it, where the expected count is the
table row count if positive, else the match-list length if non-zero, else
the configured default. -/
theorem status_rule_spec (ms : List Match) (total_slots : Nat) (players : List RawPlayer) :
    derive_spieltag_status ms total_slots players =
      (if resultsDone ms = 0 then Status.not_started
       else if resultsDone ms <
          (if 0 < total_slots then total_slots
           else if ms.length ≠ 0 then ms.length else MATCHES_PER_SPIELTAG)
        then Status.in_progress
       else Status.complete) := by
  simp only [derive_spieltag_status, naiveStatus]
  split
  · rename_i h
    rw [if_pos h.2.2]
  · rfl

/-- Claim C6: The all-zero override: a non-empty player list of all-zero raw
scores together with zero completed results yields `not_started` for every
slot count, and the override never produces a status strictly more
advanced than the naive rule. -/
theorem status_override_spec (ms : List Match) (total_slots : Nat) (players : List RawPlayer) :
    (players ≠ [] → (∀ p ∈ players, p.kicktipp_P = 0) → resultsDone ms = 0 →
      derive_spieltag_status ms total_slots players = Status.not_started) ∧
    (derive_spieltag_status ms total_slots players = naiveStatus ms total_slots ∨
      derive_spieltag_status ms total_slots players = Status.not_started) ∧
    (derive_spieltag_status ms total_slots players).level ≤
      (naiveStatus ms total_slots).level := by
  unfold derive_spieltag_status
  refine ⟨?_, ?_, ?_⟩
  · intro h1 h2 h3
    simp only [if_pos (And.intro h1 (And.intro h2 h3))]
  · split
    · exact Or.inr rfl
    · exact Or.inl rfl
  · split
    · exact Nat.zero_le _
    · exact Nat.le_refl _

/-- Witness for `status_override_spec`: one all-zero player, no matches,
slot count 5. -/
theorem status_override_spec_witness :
    derive_spieltag_status [] 5 [⟨"A", 0⟩] = Status.not_started :=
  (status_override_spec [] 5 [⟨"A", 0⟩]).1 (by decide) (by decide) (by decide)

/-! ## Extractors: theorems -/

/-- Claim C9: Structural absence of the expected table is non-fatal: with no
matching table, the match extractor yields an empty list and slot count 0,
and the player extractor yields an empty list. -/
theorem absent_tables_empty (doc : Doc) :
    ((∀ t ∈ doc, matchTableOk t = false) → parse_matches doc = ([], 0)) ∧
    ((∀ t ∈ doc, playerTableOk t = false) → parse_players doc = []) := by
  constructor
  · intro h
    have hnone : doc.find? matchTableOk = none :=
      List.find?_eq_none.mpr (fun t ht => by simp [h t ht])
    unfold parse_matches
    rw [hnone]
  · intro h
    have hnone : doc.find? playerTableOk = none :=
      List.find?_eq_none.mpr (fun t ht => by simp [h t ht])
    unfold parse_players
    rw [hnone]

/-- Witness for `absent_tables_empty`: a document with one unrelated
table. -/
theorem absent_tables_empty_witness :
    parse_matches [⟨["Foo", "Bar"], [["1", "2"]]⟩] = ([], 0) ∧
    parse_players [⟨["Foo", "Bar"], [["1", "2"]]⟩] = [] :=
  ⟨(absent_tables_empty [⟨["Foo", "Bar"], [["1", "2"]]⟩]).1 (by decide),
    (absent_tables_empty [⟨["Foo", "Bar"], [["1", "2"]]⟩]).2 (by decide)⟩

/-- The head of a `dropWhile` result never satisfies the predicate. -/
lemma head?_dropWhile_false (p : Char → Bool) (l : List Char) {c : Char}
    (h : (l.dropWhile p).head? = some c) : p c = false := by
  have hd := List.head?_dropWhile_not p l
  rw [h] at hd
  exact hd

/-- A stripped string does not start with whitespace. -/
lemma pyStripL_head (l : List Char) {c : Char}
    (h : (pyStripL l).head? = some c) : isPySpace c = false :=
  head?_dropWhile_false isPySpace (stripEndL l) h

/-- A stripped string does not end with whitespace. -/
lemma pyStripL_getLast (l : List Char) {c : Char}
    (h : (pyStripL l).getLast? = some c) : isPySpace c = false := by
  obtain ⟨t, ht⟩ := List.dropWhile_suffix (l := stripEndL l) isPySpace
  have h2 : (List.dropWhile isPySpace (stripEndL l)).getLast? = some c := h
  have hlast : (stripEndL l).getLast? = some c := by
    rw [← ht, List.getLast?_append, h2]
    rfl
  have hrev : (l.reverse.dropWhile isPySpace).head? = some c := by
    rw [← List.getLast?_reverse]
    exact hlast
  exact head?_dropWhile_false isPySpace l.reverse hrev

/-- Every match record's result comes from result normalization of some
cell text. -/
lemma result_eq_normalize {doc : Doc} {m : Match}
    (hm : m ∈ (parse_matches doc).1) :
    ∃ cell : String, m.result = normalizeResult cell := by
  unfold parse_matches at hm
  cases hfind : doc.find? matchTableOk with
  | none =>
    rw [hfind] at hm
    cases hm
  | some tbl =>
    rw [hfind] at hm
    obtain ⟨x, hx, hparse⟩ := List.mem_filterMap.mp hm
    unfold parseMatchRow at hparse
    split at hparse
    · cases hparse
    · simp only [Option.some.injEq] at hparse
      subst hparse
      exact ⟨x.2.getD 3 "", rfl⟩

/-- Claim C7, amended: Every extracted result string is either empty or a
whitespace-stripped `NUM_RE` match: digits, a colon and digits, with
whitespace possible only around the colon and none at either end. -/
theorem result_form_amended (doc : Doc) :
    ∀ m ∈ (parse_matches doc).1,
      m.result = "" ∨
        (numReMatch m.result = true ∧
          (∀ c, m.result.data.head? = some c → isPySpace c = false) ∧
          (∀ c, m.result.data.getLast? = some c → isPySpace c = false)) := by
  intro m hm
  obtain ⟨cell, hcell⟩ := result_eq_normalize hm
  rw [hcell]
  unfold normalizeResult
  cases hmatch : numReMatch (pyStrip cell) with
  | false => simp [hmatch]
  | true =>
    right
    rw [if_pos hmatch]
    have hdata : (pyStrip cell).data = pyStripL cell.data := rfl
    refine ⟨hmatch, ?_, ?_⟩
    · intro c hc
      rw [hdata] at hc
      exact pyStripL_head cell.data hc
    · intro c hc
      rw [hdata] at hc
      exact pyStripL_getLast cell.data hc

/-- Witness for `result_form_amended`: a result cell containing internal
whitespace around the colon. -/
theorem result_form_amended_witness :
    ("2 : 0" : String) = "" ∨
      (numReMatch "2 : 0" = true ∧
        (∀ c, ("2 : 0" : String).data.head? = some c → isPySpace c = false) ∧
        (∀ c, ("2 : 0" : String).data.getLast? = some c → isPySpace c = false)) :=
  result_form_amended
    [⟨["Termin", "Heim", "Gast", "Ergebnis"], [["x", "H", "A", "2 : 0"]]⟩]
    ⟨1, "H", "A", "2 : 0"⟩ (by decide)

/-- The result form claimed by the spec: exactly digits, one colon, digits,
with no other characters. -/
def specExactResultForm (s : String) : Bool :=
  let d1 := s.data.takeWhile isPyDigit
  match s.data.dropWhile isPyDigit with
  | ':' :: r2 => !d1.isEmpty && !r2.isEmpty && r2.all isPyDigit
  | _ => false

/-- Claim C7 counterexample: The extractor keeps the result `"2 : 0"`,
which is not of the exact `integer:integer` form: internal whitespace
around the colon survives normalization. -/
theorem result_exact_form_counterexample :
    (parse_matches [⟨["Termin", "Heim", "Gast", "Ergebnis"],
        [["x", "H", "A", "2 : 0"]]⟩]).1.map (fun m => m.result) = ["2 : 0"] ∧
    specExactResultForm "2 : 0" = false := by
  constructor
  · decide
  · decide

/-- Every extracted raw player record stems from a row of the player
table: non-empty stripped name, points cell int-converted with coercion
of failures to 0. -/
theorem player_record_amended (doc : Doc) :
    ∀ p ∈ parse_players doc,
      p.name ≠ "" ∧
      ∃ tbl, doc.find? playerTableOk = some tbl ∧
        ∃ r ∈ tbl.rows,
          max (nameIdxOf tbl.headers) (pIdxOf tbl.headers) < r.length ∧
          p.name = pyStrip (r.getD (nameIdxOf tbl.headers) "") ∧
          p.kicktipp_P = pyIntOrZero (pyStrip (r.getD (pIdxOf tbl.headers) "")) := by
  intro p hp
  unfold parse_players at hp
  cases hfind : doc.find? playerTableOk with
  | none =>
    rw [hfind] at hp
    cases hp
  | some tbl =>
    rw [hfind] at hp
    obtain ⟨r, hr, hparse⟩ := List.mem_filterMap.mp hp
    unfold parsePlayerRow at hparse
    split at hparse
    · cases hparse
    · rename_i hlen
      split at hparse
      · cases hparse
      · rename_i hname
        simp only [Option.some.injEq] at hparse
        subst hparse
        exact ⟨hname, tbl, rfl, r, hr, by omega, rfl, rfl⟩

/-- Witness for `player_record_amended` on a concrete player table. -/
theorem player_record_amended_witness :
    (⟨"A", 7⟩ : RawPlayer).name ≠ "" ∧
      ∃ tbl, ([⟨["Name", "P"], [["A", "7"]]⟩] : Doc).find? playerTableOk = some tbl ∧
        ∃ r ∈ tbl.rows,
          max (nameIdxOf tbl.headers) (pIdxOf tbl.headers) < r.length ∧
          (⟨"A", 7⟩ : RawPlayer).name = pyStrip (r.getD (nameIdxOf tbl.headers) "") ∧
          (⟨"A", 7⟩ : RawPlayer).kicktipp_P =
            pyIntOrZero (pyStrip (r.getD (pIdxOf tbl.headers) "")) :=
  player_record_amended [⟨["Name", "P"], [["A", "7"]]⟩] ⟨"A", 7⟩ (by decide)

/-- Claim C8 counterexample: A numeric points cell with a minus sign
parses to a negative raw score: the extractor does not guarantee
non-negative scores. -/
theorem player_nonneg_counterexample :
    parse_players [⟨["Name", "P"], [["A", "-3"]]⟩] = [⟨"A", -3⟩] ∧
    (⟨"A", -3⟩ : RawPlayer).kicktipp_P < 0 := by
  constructor
  · decide
  · decide

/-! ## Season aggregator: lemmas and theorems -/

/-- Lookup by key commutes with the per-key update map of `addPlayer`. -/
lemma find?_map_update (p : ScoredPlayer) (n : String) :
    ∀ t : Totals,
      (t.map (fun kv => if kv.1 = p.name then (kv.1, kv.2.add p) else kv)).find?
          (fun kv => decide (kv.1 = n)) =
        (t.find? (fun kv => decide (kv.1 = n))).map
          (fun kv => if kv.1 = p.name then (kv.1, kv.2.add p) else kv) := by
  intro t
  induction t with
  | nil => rfl
  | cons kv rest ih =>
    have hkey : ((if kv.1 = p.name then (kv.1, kv.2.add p) else kv) : String × Accum).1
        = kv.1 := by
      split <;> rfl
    rw [List.map_cons, List.find?_cons, List.find?_cons]
    simp only [hkey]
    by_cases hn : kv.1 = n
    · rw [decide_eq_true hn]
      rfl
    · rw [decide_eq_false hn]
      exact ih

/-- Update semantics of `addPlayer`, as for a `defaultdict`: looking up `p.name`
afterwards sees the folded accumulator, other names are untouched. -/
lemma lookupTot_addPlayer (t : Totals) (p : ScoredPlayer) (n : String) :
    lookupTot (addPlayer t p) n =
      if n = p.name then (lookupTot t n).add p else lookupTot t n := by
  unfold addPlayer lookupTot
  by_cases hany : t.any (fun kv => decide (kv.1 = p.name))
  · rw [if_pos hany, find?_map_update]
    by_cases hn : n = p.name
    · subst hn
      cases hfind : t.find? (fun kv => decide (kv.1 = p.name)) with
      | none =>
        exfalso
        rw [List.any_eq_true] at hany
        obtain ⟨kv, hkv, hpk⟩ := hany
        rw [List.find?_eq_none] at hfind
        exact hfind kv hkv hpk
      | some kv =>
        have hkv1 : kv.1 = p.name := by simpa using List.find?_some hfind
        rw [Option.map_some', if_pos hkv1, if_pos rfl]
    · cases hfind : t.find? (fun kv => decide (kv.1 = n)) with
      | none => rw [Option.map_none', if_neg hn]
      | some kv =>
        have hkv1 : kv.1 = n := by simpa using List.find?_some hfind
        rw [Option.map_some', if_neg (by rw [hkv1]; exact hn), if_neg hn]
  · rw [if_neg hany, List.find?_append]
    have hfneq : t.find? (fun kv => decide (kv.1 = p.name)) = none := by
      rw [List.find?_eq_none]
      intro kv hkv he
      exact hany (List.any_eq_true.mpr ⟨kv, hkv, he⟩)
    by_cases hn : n = p.name
    · subst hn
      have hsing : List.find? (fun kv : String × Accum => decide (kv.1 = p.name))
          [(p.name, Accum.zero.add p)] = some (p.name, Accum.zero.add p) := by
        simp
      rw [hfneq, Option.none_or, hsing, if_pos rfl]
    · have hsing : List.find? (fun kv : String × Accum => decide (kv.1 = n))
          [(p.name, Accum.zero.add p)] = none := by
        simp only [List.find?_singleton]
        rw [if_neg]
        simp only [decide_eq_true_eq]
        exact fun he => hn he.symm
      rw [hsing, Option.or_none, if_neg hn]

/-- Folding a player list into the totals sums, per name, exactly the
contributions of the players bearing that name. -/
lemma lookupTot_foldl_addPlayer (ps : List ScoredPlayer) :
    ∀ (t : Totals) (n : String),
      lookupTot (ps.foldl addPlayer t) n =
        (ps.filter (fun p => decide (p.name = n))).foldl Accum.add (lookupTot t n) := by
  induction ps with
  | nil => intro t n; rfl
  | cons p ps ih =>
    intro t n
    rw [List.foldl_cons, ih]
    by_cases hn : p.name = n
    · rw [List.filter_cons_of_pos (by simp [hn]), List.foldl_cons,
        lookupTot_addPlayer, if_pos hn.symm]
    · rw [List.filter_cons_of_neg (by simp [hn]), lookupTot_addPlayer,
        if_neg (fun he => hn he.symm)]

/-- A skipped round leaves the aggregator state unchanged. -/
lemma aggStep_skip {s : AggState} {d : RoundDoc} (hd : skipRound d = true) :
    aggStep s d = s := by
  unfold aggStep
  rw [if_pos hd]

lemma aggStep_keep {s : AggState} {d : RoundDoc} (hd : ¬skipRound d = true) :
    aggStep s d =
      ⟨d.players.foldl addPlayer s.totals, s.counted ++ [d.spieltag]⟩ := by
  unfold aggStep
  rw [if_neg hd]

/-- The counted list accumulates exactly the non-skipped rounds, in file
order. -/
lemma aggFold_counted (docs : List RoundDoc) :
    ∀ s : AggState, (docs.foldl aggStep s).counted =
      s.counted ++ (docs.filter (fun d => !skipRound d)).map (fun d => d.spieltag) := by
  induction docs with
  | nil => intro s; simp
  | cons d ds ih =>
    intro s
    rw [List.foldl_cons]
    by_cases hd : skipRound d
    · rw [List.filter_cons_of_neg (by simp [hd]), aggStep_skip hd, ih]
    · rw [List.filter_cons_of_pos (by simp [hd]), aggStep_keep hd, ih]
      simp

/-- Aggregation only sees the non-skipped rounds. -/
lemma aggFold_filter (docs : List RoundDoc) :
    ∀ s : AggState,
      docs.foldl aggStep s = (docs.filter (fun d => !skipRound d)).foldl aggStep s := by
  induction docs with
  | nil => intro s; rfl
  | cons d ds ih =>
    intro s
    rw [List.foldl_cons]
    by_cases hd : skipRound d
    · rw [List.filter_cons_of_neg (by simp [hd]), aggStep_skip hd, ih]
    · rw [List.filter_cons_of_pos (by simp [hd]), List.foldl_cons, ih]

/-- Per-name totals after aggregation: the fold of all contributions of
that name across the non-skipped rounds. -/
lemma lookupTot_aggFold (docs : List RoundDoc) :
    ∀ (s : AggState) (n : String),
      lookupTot (docs.foldl aggStep s).totals n =
        (((docs.filter (fun d => !skipRound d)).flatMap (fun d => d.players)).filter
          (fun p => decide (p.name = n))).foldl Accum.add (lookupTot s.totals n) := by
  induction docs with
  | nil => intro s n; rfl
  | cons d ds ih =>
    intro s n
    rw [List.foldl_cons]
    by_cases hd : skipRound d
    · rw [List.filter_cons_of_neg (by simp [hd]), aggStep_skip hd, ih]
    · rw [List.filter_cons_of_pos (by simp [hd]), aggStep_keep hd, ih,
        List.flatMap_cons, List.filter_append, List.foldl_append,
        lookupTot_foldl_addPlayer]

/-- Claim C3: The season aggregator skips rounds with status `not_started`
and rounds whose non-empty player list is all zero raw scores: such rounds
change nothing and never enter the counted list; all other rounds are
counted in order, and every player's totals are exactly the fold of that
player's per-round contributions, starting from the zero accumulator. -/
theorem aggregator_spec (docs : List RoundDoc) :
    (∀ (s : AggState) (d : RoundDoc), skipRound d = true → aggStep s d = s) ∧
    (aggregate docs).counted =
      (docs.filter (fun d => !skipRound d)).map (fun d => d.spieltag) ∧
    aggregate docs = aggregate (docs.filter (fun d => !skipRound d)) ∧
    (∀ n, lookupTot (aggregate docs).totals n =
      (((docs.filter (fun d => !skipRound d)).flatMap (fun d => d.players)).filter
        (fun p => decide (p.name = n))).foldl Accum.add Accum.zero) := by
  refine ⟨fun s d hd => aggStep_skip hd, ?_, ?_, ?_⟩
  · rw [aggregate, aggFold_counted]
    rfl
  · rw [aggregate, aggregate, aggFold_filter]
  · intro n
    rw [aggregate, lookupTot_aggFold]
    rfl

/-- Witness for `aggregator_spec`: a `not_started` round document is
skipped by the aggregation step. -/
theorem aggregator_spec_witness :
    skipRound ⟨1, Status.not_started, []⟩ = true ∧
    aggStep ⟨[], []⟩ ⟨1, Status.not_started, []⟩ = ⟨[], []⟩ :=
  ⟨by decide, (aggregator_spec []).1 ⟨[], []⟩ ⟨1, Status.not_started, []⟩ (by decide)⟩

/-- Claim C4: The standings player list is a permutation of the accumulated
totals, sorted descending by total league points first and total raw
score second. -/
theorem standings_sorted_spec (t : Totals) :
    List.Perm (sortStandings t) t ∧
    List.Sorted standingsKeyGE (sortStandings t) :=
  ⟨List.perm_insertionSort _ _, List.sorted_insertionSort _ _⟩

end Wurstliga
